import Mathlib

/-!
# Verification of the student-intro account coordinator

Shallow embedding of `StudentIntroCoordinatorReference` (account discovery,
index cache, pagination, record decoding) and proofs of the specified
properties.

Bytes are modelled as `Nat` values (< 256 in every real buffer), account
public keys as opaque `Nat` identifiers, and the JavaScript runtime
behaviours that matter (`Array.prototype.slice` with negative indices,
`Buffer.readUInt32LE` bounds checking, stable `Array.prototype.sort`)
are embedded explicitly.
-/

/-- One discovered account as returned by `getProgramAccounts` with
`dataSlice: { offset: 1, length: 12 }`: an opaque public key plus the
requested byte slice of the account data. -/
structure AccountData where
  pubkey : Nat
  data : List Nat
  deriving DecidableEq, Repr

/-- The coordinator's static state: the cached list of account public keys
(`static accounts: web3.PublicKey[]`). -/
structure CoordState where
  accounts : List Nat
  deriving DecidableEq, Repr

/-- Model of `Buffer.prototype.readUInt32LE(0)`: reads a little-endian 32-bit
unsigned integer from the first four bytes; Node throws `ERR_OUT_OF_RANGE`
when the buffer holds fewer than four bytes, modelled as `none`. -/
def readUInt32LE (data : List Nat) : Option Nat :=
  match data with
  | b0 :: b1 :: b2 :: b3 :: _ => some (b0 + b1 * 256 + b2 * 65536 + b3 * 16777216)
  | _ => none

/-- Model of `Buffer.prototype.slice(start, stop)` with non-negative arguments:
the elements at indices `[start, stop)`, clipped to the buffer length. -/
def bufSlice (l : List Nat) (start stop : Nat) : List Nat :=
  (l.take stop).drop start

/-- Little-endian 4-byte encoding of a 32-bit unsigned integer, as Borsh
writes a string's length prefix. -/
def u32le (n : Nat) : List Nat :=
  [n % 256, n / 256 % 256, n / 65536 % 256, n / 16777216 % 256]

/-- The comparison loop of the sort comparator in `prefetchAccounts`:
compare byte by byte over the common prefix, returning -1/1 at the first
difference, and fall back to the length difference when one buffer is a
prefix of the other. -/
def byteLexCompare : List Nat → List Nat → Int
  | x :: xs, y :: ys =>
      if x < y then -1
      else if y < x then 1
      else byteLexCompare xs ys
  | a, b => (a.length : Int) - (b.length : Int)

/-- The sort comparator of `prefetchAccounts`: read the 4-byte name length
from each slice (throwing, i.e. `none`, when a slice is shorter than 4
bytes), extract the name bytes with `slice(4, 4 + length)`, and compare
them lexicographically with length tie-break. -/
def compareAccounts (a b : AccountData) : Option Int :=
  match readUInt32LE a.data, readUInt32LE b.data with
  | some lengthA, some lengthB =>
      some (byteLexCompare (bufSlice a.data 4 (4 + lengthA))
                           (bufSlice b.data 4 (4 + lengthB)))
  | _, _ => none

/-- The key the comparator actually orders by: the name bytes clipped by
the 12-byte data slice (`slice(4, 4 + length)` of the sliced data). -/
def sortKey (a : AccountData) : List Nat :=
  match readUInt32LE a.data with
  | some len => bufSlice a.data 4 (4 + len)
  | none => []

/-- Ordering induced by the comparator's key. -/
def keyLe (a b : AccountData) : Prop :=
  byteLexCompare (sortKey a) (sortKey b) ≤ 0

instance : DecidablePred fun p : AccountData × AccountData => keyLe p.1 p.2 :=
  fun _ => by unfold keyLe; infer_instance

/-- Insertion step of the stable sort, propagating a comparator exception
(`none`) to the whole sort, as a thrown comparator aborts
`Array.prototype.sort`. -/
def insertM (cmp : AccountData → AccountData → Option Int) (x : AccountData) :
    List AccountData → Option (List AccountData)
  | [] => some [x]
  | y :: ys =>
      match cmp x y with
      | none => none
      | some c =>
          if c ≤ 0 then some (x :: y :: ys)
          else (insertM cmp x ys).map (fun r => y :: r)

/-- Stable sort with an exception-propagating comparator, modelling
`Array.prototype.sort` (stable per ECMA-262). An element is inserted
before the first cached element it compares `≤ 0` against, so equal
elements keep their original relative order. -/
def sortM (cmp : AccountData → AccountData → Option Int) :
    List AccountData → Option (List AccountData)
  | [] => some []
  | x :: xs => (sortM cmp xs).bind (insertM cmp x)

/-- Model of `prefetchAccounts` as a state transition: given the cached state and the
result of the discovery call (`getProgramAccounts`), return the new state
plus an error when the discovery call rejected or the sort comparator
threw. The cache assignment happens only after a fully successful sort, so
on any failure the previous state is returned untouched. -/
def prefetchRun (st : CoordState) (disc : Except String (List AccountData)) :
    CoordState × Option String :=
  match disc with
  | .error e => (st, some e)
  | .ok accs =>
      match sortM compareAccounts accs with
      | none => (st, some "RangeError: readUInt32LE out of range")
      | some sorted => (⟨sorted.map (fun a => a.pubkey)⟩, none)

/-- The ledger as seen by the coordinator: discovery keyed by the search
string (already sliced server-side by `dataSlice`), and per-key batch
fetch of full payloads (`getMultipleAccountsInfo`; `none` = account
missing). -/
structure Ledger where
  discovered : String → Except String (List AccountData)
  batchFetch : Nat → Option (List Nat)

/-- The rebuild condition of `fetchPage`:
`this.accounts.length === 0 || reload`. -/
def rebuildNeeded (st : CoordState) (reload : Bool) : Bool :=
  st.accounts.length == 0 || reload

/-- Step 1 of `fetchPage`: conditionally rebuild the cache. -/
def step1 (led : Ledger) (st : CoordState) (search : String) (reload : Bool) :
    CoordState × Option String :=
  if rebuildNeeded st reload then prefetchRun st (led.discovered search)
  else (st, none)

/-- ECMA-262 relative-index resolution used by `Array.prototype.slice`:
a negative index counts from the end (clamped at 0), a non-negative index
is clamped to the length. -/
def resolveIdx (k : Int) (n : Nat) : Nat :=
  if k < 0 then n - (-k).toNat else min k.toNat n

/-- Model of `Array.prototype.slice(start, stop)` with possibly negative integer
arguments. -/
def jsSlice (l : List Nat) (start stop : Int) : List Nat :=
  (l.take (resolveIdx stop l.length)).drop (resolveIdx start l.length)

/-- The page-slicing step of `fetchPage`:
`this.accounts.slice((page - 1) * perPage, page * perPage)`. -/
def pageSlice (accounts : List Nat) (page perPage : Int) : List Nat :=
  jsSlice accounts ((page - 1) * perPage) (page * perPage)

/-- A decoded student introduction record. -/
structure StudentIntroReference where
  name : String
  message : String
  deriving DecidableEq, Repr

/-- Decode one UTF-8 encoded code point from the head of a byte list,
returning the code point and the remaining bytes; rejects overlong forms,
surrogates and out-of-range values. -/
def utf8DecodeOne : List Nat → Option (Nat × List Nat)
  | [] => none
  | b :: rest =>
      if b < 128 then some (b, rest)
      else if b < 192 then none
      else if b < 224 then
        match rest with
        | b1 :: rest1 =>
            if 128 ≤ b1 ∧ b1 < 192 then
              let cp := (b - 192) * 64 + (b1 - 128)
              if 128 ≤ cp then some (cp, rest1) else none
            else none
        | _ => none
      else if b < 240 then
        match rest with
        | b1 :: b2 :: rest2 =>
            if 128 ≤ b1 ∧ b1 < 192 ∧ 128 ≤ b2 ∧ b2 < 192 then
              let cp := (b - 224) * 4096 + (b1 - 128) * 64 + (b2 - 128)
              if 2048 ≤ cp ∧ (cp < 55296 ∨ 57344 ≤ cp) then some (cp, rest2)
              else none
            else none
        | _ => none
      else if b < 245 then
        match rest with
        | b1 :: b2 :: b3 :: rest3 =>
            if 128 ≤ b1 ∧ b1 < 192 ∧ 128 ≤ b2 ∧ b2 < 192 ∧ 128 ≤ b3 ∧ b3 < 192 then
              let cp := (b - 240) * 262144 + (b1 - 128) * 4096 +
                        (b2 - 128) * 64 + (b3 - 128)
              if 65536 ≤ cp ∧ cp ≤ 1114111 then some (cp, rest3) else none
            else none
        | _ => none
      else none

/-- Decode a byte list as UTF-8 into code points, with explicit fuel
(each step consumes at least one byte, so `l.length` fuel always
suffices). -/
def utf8DecodeAux : Nat → List Nat → Option (List Nat)
  | _, [] => some []
  | 0, _ :: _ => none
  | Nat.succ fuel, b :: tl =>
      (utf8DecodeOne (b :: tl)).bind fun p =>
        (utf8DecodeAux fuel p.2).map fun cps => p.1 :: cps

/-- Decode a whole byte list as UTF-8 into a list of code points. -/
def utf8DecodeAll (l : List Nat) : Option (List Nat) :=
  utf8DecodeAux l.length l

/-- Modelled from the spec: UTF-8 decoding of a string field's content
bytes; the concrete decoder lives in the `StudentIntroReference` model
file, which is not under `src/`. Valid code points become `Char`s. -/
def bytesToStr (l : List Nat) : Option String :=
  (utf8DecodeAll l).map (fun cps => String.mk (cps.map Char.ofNat))

/-- Modelled from the spec: one field of `RecordCodec.Decode` — read a
4-byte little-endian length, then that many bytes as the field's UTF-8
content, returning the decoded string and the remaining bytes; `none` on
truncation or invalid UTF-8 (`StudentIntroReference.deserialize` is not
under `src/`). -/
def decodeField (bytes : List Nat) : Option (String × List Nat) :=
  match readUInt32LE bytes with
  | none => none
  | some len =>
      let rest := bytes.drop 4
      if rest.length < len then none
      else
        match bytesToStr (rest.take len) with
        | none => none
        | some s => some (s, rest.drop len)

/-- Modelled from the spec: `StudentIntroReference.deserialize` (not under
`src/`) — `none` when the payload is absent or empty (`Empty`), otherwise
decode `name` then `message` in fixed order, `none` on truncation or
invalid UTF-8; never a partially populated record. -/
def deserialize (data : Option (List Nat)) : Option StudentIntroReference :=
  match data with
  | none => none
  | some bytes =>
      if bytes.isEmpty then none
      else
        match decodeField bytes with
        | none => none
        | some (n, r) =>
            match decodeField r with
            | none => none
            | some (m, _) => some ⟨n, m⟩

/-- The `reduce` of `fetchPage`: deserialize each fetched payload, skip
the positions whose payload is absent or fails to decode, and append the
successfully decoded records in order. -/
def processAccounts (infos : List (Option (List Nat))) : List StudentIntroReference :=
  infos.foldl
    (fun accum acc =>
      match deserialize acc with
      | none => accum
      | some studentIntro => accum ++ [studentIntro])
    []

/-- The full observable outcome of one `fetchPage` call: the resulting
static state, the returned records or the propagated error, whether a
rebuild (`prefetchAccounts`) was triggered, and whether the batch fetch
network round trip was performed. -/
instance {ε α : Type} [DecidableEq ε] [DecidableEq α] : DecidableEq (Except ε α) :=
  fun a b =>
    match a, b with
    | .ok x, .ok y => decidable_of_iff (x = y) (by simp)
    | .error x, .error y => decidable_of_iff (x = y) (by simp)
    | .ok _, .error _ => isFalse (fun h => Except.noConfusion h)
    | .error _, .ok _ => isFalse (fun h => Except.noConfusion h)

structure FetchResult where
  state : CoordState
  outcome : Except String (List StudentIntroReference)
  rebuilt : Bool
  batched : Bool
  deriving DecidableEq, Repr

/-- Model of `StudentIntroCoordinatorReference.fetchPage` as a state transition:
rebuild the cache when it is empty or `reload` is set, slice the cached
key list for the requested page, return immediately when the slice is
empty, otherwise batch-fetch the payloads and decode them with
skip-and-continue. -/
def fetchPage (led : Ledger) (st : CoordState) (page perPage : Int)
    (search : String) (reload : Bool) : FetchResult :=
  match step1 led st search reload with
  | (st1, some e) => ⟨st1, .error e, rebuildNeeded st reload, false⟩
  | (st1, none) =>
      let paginatedPublicKeys := pageSlice st1.accounts page perPage
      if paginatedPublicKeys.isEmpty then
        ⟨st1, .ok [], rebuildNeeded st reload, false⟩
      else
        ⟨st1, .ok (processAccounts (paginatedPublicKeys.map led.batchFetch)),
          rebuildNeeded st reload, true⟩

/-- Full on-chain account data for one student introduction: a one-byte
metadata field, then the Borsh-encoded `name` and `message` strings. -/
def accountFullData (meta : Nat) (name msg : List Nat) : List Nat :=
  meta :: (u32le name.length ++ name ++ u32le msg.length ++ msg)

/-- The server-side `dataSlice: { offset: 1, length: 12 }` applied by
discovery. -/
def discoverySlice (full : List Nat) : List Nat :=
  (full.drop 1).take 12

/-- An account as discovery returns it for a record with the given name
and message bytes. -/
def mkDiscovered (pk meta : Nat) (name msg : List Nat) : AccountData :=
  ⟨pk, discoverySlice (accountFullData meta name msg)⟩

/-- An account slice shorter than 4 bytes makes `readUInt32LE` throw. -/
def badRead (a : AccountData) : Prop := readUInt32LE a.data = none

instance : DecidablePred badRead := fun a => by unfold badRead; infer_instance

/-- Discovery result for a record named "Bob" (0x42 0x6F 0x62). -/
def bobAcc : AccountData := mkDiscovered 1 1 [66, 111, 98] [104, 105]

/-- Discovery result for a record named "Alice" (0x41 ...). -/
def aliceAcc : AccountData := mkDiscovered 2 1 [65, 108, 105, 99, 101] [104, 105]

/-- Discovery result for a record named "amy" (0x61 0x6D 0x79). -/
def amyAcc : AccountData := mkDiscovered 3 1 [97, 109, 121] [104, 105]

/-- Discovery result for a record with the 9-byte name "aaaaaaaab". -/
def tieAccB : AccountData :=
  mkDiscovered 1 1 [97, 97, 97, 97, 97, 97, 97, 97, 98] [104]

/-- Discovery result for a record with the 9-byte name "aaaaaaaaa". -/
def tieAccA : AccountData :=
  mkDiscovered 2 1 [97, 97, 97, 97, 97, 97, 97, 97, 97] [104]

/-- Encoded payload of the record `{name: "Al", message: "hi"}`. -/
def okPayload : List Nat := [2, 0, 0, 0, 65, 108, 2, 0, 0, 0, 104, 105]

/-- Encoded payload of the record `{name: "am", message: "!"}`. -/
def amPayload : List Nat := [2, 0, 0, 0, 97, 109, 1, 0, 0, 0, 33]

/-- A corrupt payload: declares a 255-byte name with no content bytes. -/
def corruptPayload : List Nat := [255, 0, 0, 0]

/-- A concrete ledger: the search filter "a" matches only the Alice
account, any other filter matches only the amy account; batch fetch
returns the Al/hi payload for key 2 and the am/! payload otherwise. -/
def exLedger : Ledger :=
  ⟨fun s => if s = "a" then .ok [aliceAcc] else .ok [amyAcc],
   fun pk => if pk = 2 then some okPayload else some amPayload⟩

/-- A ledger whose discovery call always fails. -/
def errLedger : Ledger :=
  ⟨fun _ => .error "network down", fun _ => none⟩

/-- A discovered account whose data slice has fewer than 4 bytes. -/
def badAcc : AccountData := ⟨9, [1, 2]⟩

/-- A well-formed discovered account (paired with `badAcc` in examples). -/
def goodAcc : AccountData := ⟨8, [2, 0, 0, 0, 65, 108, 0, 0, 0, 0, 0, 0]⟩

theorem byteLexCompare_self (a : List Nat) : byteLexCompare a a = 0 := by
  induction a with
  | nil => simp [byteLexCompare]
  | cons x xs ih => simp [byteLexCompare, ih]

theorem byteLexCompare_swap (a b : List Nat) :
    byteLexCompare b a = -byteLexCompare a b := by
  induction a generalizing b with
  | nil =>
    cases b with
    | nil => simp [byteLexCompare]
    | cons y ys => simp [byteLexCompare]
  | cons x xs ih =>
    cases b with
    | nil => simp [byteLexCompare]
    | cons y ys =>
      by_cases hxy : x < y
      · have hyx : ¬ y < x := by omega
        simp [byteLexCompare, hxy, hyx]
      · by_cases hyx : y < x
        · simp [byteLexCompare, hxy, hyx]
        · simp [byteLexCompare, hxy, hyx, ih ys]

theorem byteLexCompare_trans {a b c : List Nat}
    (h1 : byteLexCompare a b ≤ 0) (h2 : byteLexCompare b c ≤ 0) :
    byteLexCompare a c ≤ 0 := by
  induction a generalizing b c with
  | nil =>
    cases c with
    | nil => simp [byteLexCompare]
    | cons z zs =>
      simp [byteLexCompare]
      omega
  | cons x xs ih =>
    cases b with
    | nil =>
      exfalso
      simp [byteLexCompare] at h1
      omega
    | cons y ys =>
      cases c with
      | nil =>
        exfalso
        simp [byteLexCompare] at h2
        omega
      | cons z zs =>
        by_cases hxy : x < y
        · by_cases hyz : y < z
          · have hxz : x < z := by omega
            have : ¬ z < x := by omega
            simp [byteLexCompare, hxz]
          · by_cases hzy : z < y
            · simp [byteLexCompare, hxy, hyz, hzy] at h2
            · have hyz' : y = z := by omega
              subst hyz'
              have : ¬ y < x := by omega
              simp [byteLexCompare, hxy]
        · by_cases hyx : y < x
          · simp [byteLexCompare, hxy, hyx] at h1
          · have hxy' : x = y := by omega
            subst hxy'
            by_cases hyz : x < z
            · have : ¬ z < x := by omega
              simp [byteLexCompare, hyz]
            · by_cases hzy : z < x
              · simp [byteLexCompare, hyz, hzy] at h2
              · have hxz' : x = z := by omega
                subst hxz'
                simp [byteLexCompare, hxy, hyx] at h1 h2 ⊢
                exact ih h1 h2

theorem compareAccounts_eq_key {a b : AccountData} {la lb : Nat}
    (ha : readUInt32LE a.data = some la) (hb : readUInt32LE b.data = some lb) :
    compareAccounts a b = some (byteLexCompare (sortKey a) (sortKey b)) := by
  simp [compareAccounts, sortKey, ha, hb]

theorem compareAccounts_some_val {a b : AccountData} {c : Int}
    (h : compareAccounts a b = some c) :
    c = byteLexCompare (sortKey a) (sortKey b) := by
  unfold compareAccounts at h
  cases ha : readUInt32LE a.data with
  | none => rw [ha] at h; exact absurd h (by simp)
  | some la =>
    cases hb : readUInt32LE b.data with
    | none => rw [ha, hb] at h; exact absurd h (by simp)
    | some lb =>
      rw [ha, hb] at h
      simp at h
      simp only [sortKey, ha, hb]
      exact h.symm

theorem keyLe_trans {a b c : AccountData} (h1 : keyLe a b) (h2 : keyLe b c) :
    keyLe a c :=
  byteLexCompare_trans h1 h2

theorem keyLe_of_not_lt {a b : AccountData} {c : Int}
    (h : compareAccounts a b = some c) (hc : ¬ c ≤ 0) : keyLe b a := by
  have hv := compareAccounts_some_val h
  unfold keyLe
  rw [byteLexCompare_swap]
  omega

theorem insertM_mem {cmp : AccountData → AccountData → Option Int}
    {x : AccountData} {l r : List AccountData}
    (h : insertM cmp x l = some r) : ∀ z ∈ r, z = x ∨ z ∈ l := by
  induction l generalizing r with
  | nil =>
    simp [insertM] at h
    subst h
    simp
  | cons y ys ih =>
    unfold insertM at h
    cases hc : cmp x y with
    | none => rw [hc] at h; exact absurd h (by simp)
    | some c =>
      rw [hc] at h
      by_cases hle : c ≤ 0
      · simp [hle] at h
        subst h
        intro z hz
        simp at hz
        rcases hz with hz | hz | hz
        · exact Or.inl hz
        · exact Or.inr (by simp [hz])
        · exact Or.inr (by simp [hz])
      · simp [hle] at h
        rcases h with ⟨r', hr', hrr⟩
        subst hrr
        intro z hz
        simp at hz
        rcases hz with hz | hz
        · exact Or.inr (by simp [hz])
        · rcases ih hr' z hz with h' | h'
          · exact Or.inl h'
          · exact Or.inr (by simp [h'])

theorem insertM_sorted {x : AccountData} {l r : List AccountData}
    (hs : List.Pairwise keyLe l)
    (h : insertM compareAccounts x l = some r) : List.Pairwise keyLe r := by
  induction l generalizing r with
  | nil =>
    simp [insertM] at h
    subst h
    simp
  | cons y ys ih =>
    unfold insertM at h
    cases hc : compareAccounts x y with
    | none => rw [hc] at h; exact absurd h (by simp)
    | some c =>
      rw [hc] at h
      rcases List.pairwise_cons.mp hs with ⟨hy, hys⟩
      by_cases hle : c ≤ 0
      · simp [hle] at h
        subst h
        refine List.pairwise_cons.mpr ⟨?_, hs⟩
        intro z hz
        have hxy : keyLe x y := by
          have := compareAccounts_some_val hc
          unfold keyLe
          omega
        simp at hz
        rcases hz with hz | hz
        · subst hz; exact hxy
        · exact keyLe_trans hxy (hy z hz)
      · simp [hle] at h
        rcases h with ⟨r', hr', hrr⟩
        subst hrr
        refine List.pairwise_cons.mpr ⟨?_, ih hys hr'⟩
        intro z hz
        rcases insertM_mem hr' z hz with h' | h'
        · subst h'
          exact keyLe_of_not_lt hc hle
        · exact hy z h'

theorem sortM_sorted {l r : List AccountData}
    (h : sortM compareAccounts l = some r) : List.Pairwise keyLe r := by
  induction l generalizing r with
  | nil =>
    simp [sortM] at h
    subst h
    simp
  | cons x xs ih =>
    unfold sortM at h
    cases hs : sortM compareAccounts xs with
    | none => rw [hs] at h; exact absurd h (by simp)
    | some r' =>
      rw [hs] at h
      simp at h
      exact insertM_sorted (ih hs) h

theorem insertM_perm {cmp : AccountData → AccountData → Option Int}
    {x : AccountData} {l r : List AccountData}
    (h : insertM cmp x l = some r) : r.Perm (x :: l) := by
  induction l generalizing r with
  | nil =>
    simp [insertM] at h
    subst h
    exact List.Perm.refl _
  | cons y ys ih =>
    unfold insertM at h
    cases hc : cmp x y with
    | none => rw [hc] at h; exact absurd h (by simp)
    | some c =>
      rw [hc] at h
      by_cases hle : c ≤ 0
      · simp [hle] at h
        subst h
        exact List.Perm.refl _
      · simp [hle] at h
        rcases h with ⟨r', hr', hrr⟩
        subst hrr
        exact (List.Perm.cons y (ih hr')).trans (List.Perm.swap x y ys)

theorem sortM_perm {cmp : AccountData → AccountData → Option Int}
    {l r : List AccountData}
    (h : sortM cmp l = some r) : r.Perm l := by
  induction l generalizing r with
  | nil =>
    simp [sortM] at h
    subst h
    exact List.Perm.refl _
  | cons x xs ih =>
    unfold sortM at h
    cases hs : sortM cmp xs with
    | none => rw [hs] at h; exact absurd h (by simp)
    | some r' =>
      rw [hs] at h
      simp at h
      exact (insertM_perm h).trans (List.Perm.cons x (ih hs))

theorem compareAccounts_none_left {a b : AccountData} (h : badRead a) :
    compareAccounts a b = none := by
  unfold badRead at h
  unfold compareAccounts
  rw [h]

theorem compareAccounts_none_right {a b : AccountData} (h : badRead b) :
    compareAccounts a b = none := by
  unfold badRead at h
  unfold compareAccounts
  rw [h]
  cases readUInt32LE a.data <;> rfl

theorem insertM_length {cmp : AccountData → AccountData → Option Int}
    {x : AccountData} {l r : List AccountData}
    (h : insertM cmp x l = some r) : r.length = l.length + 1 := by
  induction l generalizing r with
  | nil =>
    simp [insertM] at h
    subst h
    rfl
  | cons y ys ih =>
    unfold insertM at h
    cases hc : cmp x y with
    | none => rw [hc] at h; exact absurd h (by simp)
    | some c =>
      rw [hc] at h
      by_cases hle : c ≤ 0
      · simp [hle] at h
        subst h
        simp
      · simp [hle] at h
        rcases h with ⟨r', hr', hrr⟩
        subst hrr
        simp [ih hr']

theorem sortM_length {cmp : AccountData → AccountData → Option Int}
    {l r : List AccountData}
    (h : sortM cmp l = some r) : r.length = l.length := by
  induction l generalizing r with
  | nil =>
    simp [sortM] at h
    simp [h]
  | cons x xs ih =>
    unfold sortM at h
    cases hs : sortM cmp xs with
    | none => rw [hs] at h; exact absurd h (by simp)
    | some r' =>
      rw [hs] at h
      simp at h
      rw [insertM_length h, ih hs]
      simp

theorem insertM_none_of_badRead_head {x y : AccountData} {ys : List AccountData}
    (h : badRead x ∨ badRead y) :
    insertM compareAccounts x (y :: ys) = none := by
  unfold insertM
  rcases h with h | h
  · rw [compareAccounts_none_left h]
  · rw [compareAccounts_none_right h]

theorem sortM_none_of_badRead {l : List AccountData} {a : AccountData}
    (hmem : a ∈ l) (hbad : badRead a) (hlen : 2 ≤ l.length) :
    sortM compareAccounts l = none := by
  induction l with
  | nil => simp at hmem
  | cons x xs ih =>
    unfold sortM
    rcases List.mem_cons.mp hmem with hax | hax
    · subst hax
      cases hs : sortM compareAccounts xs with
      | none => rfl
      | some r =>
        cases r with
        | nil =>
          exfalso
          have := sortM_length hs
          simp at this
          simp at hlen
          omega
        | cons y ys =>
          simp [insertM_none_of_badRead_head (Or.inl hbad)]
    · by_cases hxs : 2 ≤ xs.length
      · rw [ih hax hxs]
        rfl
      · have hx1 : xs.length = 1 := by
          have : 1 ≤ xs.length := List.length_pos.mpr (List.ne_nil_of_mem hax)
          omega
        cases xs with
        | nil => simp at hax
        | cons y ys =>
          cases ys with
          | nil =>
            simp at hax
            subst hax
            have h1 : sortM compareAccounts [a] = some [a] := rfl
            rw [h1]
            simp [insertM_none_of_badRead_head (Or.inr hbad)]
          | cons z zs => simp at hx1

theorem prefetchRun_ok (st : CoordState) (accs : List AccountData) :
    prefetchRun st (.ok accs) =
      match sortM compareAccounts accs with
      | none => (st, some "RangeError: readUInt32LE out of range")
      | some sorted => (⟨sorted.map (fun a => a.pubkey)⟩, none) := rfl

theorem prefetchRun_ok_state_free {st st2 st' : CoordState}
    {disc : Except String (List AccountData)}
    (h : prefetchRun st disc = (st', none)) :
    prefetchRun st2 disc = (st', none) := by
  cases disc with
  | error e => simp [prefetchRun] at h
  | ok accs =>
    rw [prefetchRun_ok] at h ⊢
    cases hs : sortM compareAccounts accs with
    | none => rw [hs] at h; simp at h
    | some sorted =>
      rw [hs] at h
      simpa using h

theorem processAccounts_eq_filterMap (infos : List (Option (List Nat))) :
    processAccounts infos = infos.filterMap deserialize := by
  unfold processAccounts
  suffices h : ∀ acc : List StudentIntroReference,
      infos.foldl
        (fun accum acc' =>
          match deserialize acc' with
          | none => accum
          | some studentIntro => accum ++ [studentIntro]) acc
      = acc ++ infos.filterMap deserialize by
    simpa using h []
  induction infos with
  | nil => intro acc; simp
  | cons i is ih =>
    intro acc
    cases hd : deserialize i with
    | none => simp [List.foldl_cons, hd, ih]
    | some r => simp [List.foldl_cons, hd, ih, List.append_assoc]

theorem step1_no_rebuild {led : Ledger} {st : CoordState} {search : String}
    {reload : Bool} (h : rebuildNeeded st reload = false) :
    step1 led st search reload = (st, none) := by
  unfold step1
  rw [h]
  rfl

theorem step1_rebuild {led : Ledger} {st : CoordState} {search : String}
    {reload : Bool} (h : rebuildNeeded st reload = true) :
    step1 led st search reload = prefetchRun st (led.discovered search) := by
  unfold step1
  rw [h]
  rfl

theorem fetchPage_of_step1_err {led : Ledger} {st st1 : CoordState}
    {search : String} {reload : Bool} {e : String} (page perPage : Int)
    (h : step1 led st search reload = (st1, some e)) :
    fetchPage led st page perPage search reload
      = ⟨st1, .error e, rebuildNeeded st reload, false⟩ := by
  unfold fetchPage
  rw [h]

theorem fetchPage_of_step1 {led : Ledger} {st st1 : CoordState}
    {search : String} {reload : Bool} (page perPage : Int)
    (h : step1 led st search reload = (st1, none)) :
    fetchPage led st page perPage search reload
      = if (pageSlice st1.accounts page perPage).isEmpty then
          ⟨st1, .ok [], rebuildNeeded st reload, false⟩
        else
          ⟨st1,
            .ok (processAccounts
              ((pageSlice st1.accounts page perPage).map led.batchFetch)),
            rebuildNeeded st reload, true⟩ := by
  unfold fetchPage
  rw [h]

theorem pageSlice_nil (page perPage : Int) : pageSlice [] page perPage = [] := by
  unfold pageSlice jsSlice
  simp

theorem resolveIdx_nonneg {k : Int} (h : 0 ≤ k) (n : Nat) :
    resolveIdx k n = min k.toNat n := by
  unfold resolveIdx
  rw [if_neg (by omega)]

theorem jsSlice_nonneg {l : List Nat} {a b : Int} (ha : 0 ≤ a) (hb : 0 ≤ b) :
    jsSlice l a b = (l.drop a.toNat).take (b.toNat - a.toNat) := by
  unfold jsSlice
  rw [resolveIdx_nonneg ha, resolveIdx_nonneg hb, List.drop_take]
  have hdrop : l.drop (min a.toNat l.length) = l.drop a.toNat := by
    rcases le_or_lt a.toNat l.length with h | h
    · rw [min_eq_left h]
    · rw [min_eq_right (le_of_lt h)]
      rw [List.drop_eq_nil_of_le (le_refl _), List.drop_eq_nil_of_le (le_of_lt h)]
  rw [hdrop]
  apply List.take_eq_take.mpr
  rw [List.length_drop]
  omega

/-- Claim C2 (counterexample): the claim says any call with `page < 1` or
`perPage < 1` makes the page-slicing step yield an empty sequence; but
`perPage = -2 < 1` with `page = 1` against a 5-element Index resolves to
`slice(0, -2)`, which JavaScript interprets end-relative and returns the
first three identifiers — a non-empty result. -/
theorem pageSlice_negative_perPage_nonempty :
    (-2 : Int) < 1 ∧
    pageSlice [1, 2, 3, 4, 5] 1 (-2) = [1, 2, 3] ∧
    pageSlice [1, 2, 3, 4, 5] 1 (-2) ≠ [] := by decide

/-- Claim C2 (amended): the page-slicing step of `fetchPage` is a total
function (never a crash), and it is guaranteed to yield an empty sequence
when `page = 0` or `perPage = 0`; for the other arguments with `page < 1`
or `perPage < 1`, JavaScript's end-relative negative slice indices can
produce a non-empty result. -/
theorem pageSlice_zero_empty (accounts : List Nat) (page perPage : Int)
    (h : page = 0 ∨ perPage = 0) :
    pageSlice accounts page perPage = [] := by
  have hstop : page * perPage = 0 := by
    rcases h with h | h <;> simp [h]
  unfold pageSlice jsSlice
  rw [hstop]
  have hres : resolveIdx 0 accounts.length = 0 := by simp [resolveIdx]
  rw [hres]
  simp

/-- Witness for the amended C2 at `page = 0`, `perPage = 7`. -/
theorem pageSlice_zero_empty_witness :
    ((0 : Int) = 0 ∨ (7 : Int) = 0) ∧ pageSlice [1, 2, 3] 0 7 = [] :=
  ⟨Or.inl rfl, pageSlice_zero_empty [1, 2, 3] 0 7 (Or.inl rfl)⟩

/-- Claim C4: for `page ≥ 1` and `perPage ≥ 1` the page-slicing step
returns exactly the half-open slice `[(page-1)*perPage, page*perPage)` of
the Index clipped to its length — i.e. `drop` then `take`, preserving
Index order — and its length is `min perPage (max 0 (N - (page-1)*perPage))`
(the `max 0` is Nat truncated subtraction). -/
theorem pageSlice_spec (accounts : List Nat) (page perPage : Int)
    (hp : 1 ≤ page) (hs : 1 ≤ perPage) :
    pageSlice accounts page perPage
      = (accounts.drop ((page - 1) * perPage).toNat).take perPage.toNat ∧
    (pageSlice accounts page perPage).length
      = min perPage.toNat (accounts.length - ((page - 1) * perPage).toNat) := by
  have ha : 0 ≤ (page - 1) * perPage := mul_nonneg (by omega) (by omega)
  have hb : 0 ≤ page * perPage := mul_nonneg (by omega) (by omega)
  have hkey : page * perPage = (page - 1) * perPage + perPage := by ring
  have hdiff : (page * perPage).toNat - ((page - 1) * perPage).toNat
      = perPage.toNat := by omega
  constructor
  · rw [pageSlice, jsSlice_nonneg ha hb, hdiff]
  · rw [pageSlice, jsSlice_nonneg ha hb, hdiff, List.length_take,
      List.length_drop]

/-- Witness for C4: page 2 of size 5 over a 7-element Index is its last
two identifiers. -/
theorem pageSlice_spec_witness :
    pageSlice [10, 20, 30, 40, 50, 60, 70] 2 5
      = (([10, 20, 30, 40, 50, 60, 70] : List Nat).drop
          (((2 : Int) - 1) * 5).toNat).take (5 : Int).toNat ∧
    (pageSlice [10, 20, 30, 40, 50, 60, 70] 2 5).length
      = min (5 : Int).toNat
          (([10, 20, 30, 40, 50, 60, 70] : List Nat).length
            - (((2 : Int) - 1) * 5).toNat) :=
  pageSlice_spec [10, 20, 30, 40, 50, 60, 70] 2 5 (by decide) (by decide)

/-- Claim C5: when the discovery call fails during a rebuild, the error
propagates (from `prefetchAccounts`, and through `fetchPage` whenever the
rebuild was triggered) and the previously cached Index is returned
unchanged — the new identifier list is swapped in only on full success. -/
theorem rebuild_error_propagates (led : Ledger) (st : CoordState)
    (page perPage : Int) (search : String) (reload : Bool) (e : String)
    (herr : led.discovered search = .error e) :
    prefetchRun st (led.discovered search) = (st, some e) ∧
    ((st.accounts = [] ∨ reload = true) →
      fetchPage led st page perPage search reload
        = ⟨st, .error e, true, false⟩) := by
  constructor
  · rw [herr]
    rfl
  · intro hcond
    have hr : rebuildNeeded st reload = true := by
      rcases hcond with h | h
      · simp [rebuildNeeded, h]
      · simp [rebuildNeeded, h]
    have hstep : step1 led st search reload = (st, some e) := by
      rw [step1_rebuild hr, herr]
      rfl
    rw [fetchPage_of_step1_err page perPage hstep, hr]

/-- Witness for C5 on a concrete always-failing ledger. -/
theorem rebuild_error_propagates_witness :
    errLedger.discovered "x" = .error "network down" ∧
    fetchPage errLedger ⟨[]⟩ 1 5 "x" false
      = ⟨⟨[]⟩, .error "network down", true, false⟩ :=
  ⟨rfl, (rebuild_error_propagates errLedger ⟨[]⟩ 1 5 "x" false
      "network down" rfl).2 (Or.inl rfl)⟩

/-- Claim C6: the decode loop of `fetchPage` drops exactly the positions
whose payload is absent or fails to decode and keeps all successfully
decoded records in their original page order (it is `filterMap`, an
order-preserving selection); for the batch result
`[valid bytes, absent, corrupt bytes]` exactly the record at position 0
is returned. -/
theorem processAccounts_skip_and_continue :
    (∀ infos : List (Option (List Nat)),
      processAccounts infos = infos.filterMap deserialize) ∧
    processAccounts [some okPayload, none, some corruptPayload]
      = [⟨"Al", "hi"⟩] :=
  ⟨processAccounts_eq_filterMap, by decide⟩

/-- Claim C7: whenever step 1 succeeded and the computed page slice is
empty, `fetchPage` returns an empty record sequence with no batch-fetch
round trip and no error. -/
theorem emptySlice_short_circuit (led : Ledger) (st st1 : CoordState)
    (search : String) (reload : Bool) (page perPage : Int)
    (h1 : step1 led st search reload = (st1, none))
    (h2 : pageSlice st1.accounts page perPage = []) :
    fetchPage led st page perPage search reload
      = ⟨st1, .ok [], rebuildNeeded st reload, false⟩ := by
  rw [fetchPage_of_step1 page perPage h1, h2]
  rfl

/-- Witness for C7: page 5 of a 2-element Index gives an empty page and
no batch fetch. -/
theorem emptySlice_short_circuit_witness :
    fetchPage errLedger ⟨[1, 2]⟩ 5 5 "x" false
      = ⟨⟨[1, 2]⟩, .ok [], false, false⟩ := by
  have h := emptySlice_short_circuit errLedger ⟨[1, 2]⟩ ⟨[1, 2]⟩ "x" false 5 5
    (by decide) (by decide)
  simpa using h

/-- Claim C10 (counterexample): the claim says any discovered account with
a data slice shorter than 4 bytes makes the rebuild fail and leaves the
Index untouched; but when discovery returns exactly one (malformed)
account, `Array.prototype.sort` never invokes the comparator, so
`prefetchAccounts` succeeds and installs the malformed account's key. -/
theorem singleton_badAccount_rebuild_succeeds :
    readUInt32LE badAcc.data = none ∧
    prefetchRun ⟨[7]⟩ (.ok [badAcc]) = (⟨[9]⟩, none) := by decide

/-- Claim C10 (amended): whenever discovery returns at least two accounts
and any of them carries a data slice of fewer than 4 bytes, the sort
comparator's 32-bit read throws, the whole rebuild fails, and the previous
Index is left unchanged; with exactly one (malformed) account the
comparator is never invoked and the rebuild succeeds. -/
theorem badAccount_aborts_rebuild (st : CoordState)
    (accs : List AccountData) (a : AccountData)
    (hmem : a ∈ accs) (hbad : badRead a) (hlen : 2 ≤ accs.length) :
    prefetchRun st (.ok accs)
      = (st, some "RangeError: readUInt32LE out of range") := by
  rw [prefetchRun_ok, sortM_none_of_badRead hmem hbad hlen]

/-- Witness for the amended C10: a malformed account next to a well-formed
one aborts the rebuild and leaves the prior Index `[7]` in place. -/
theorem badAccount_aborts_rebuild_witness :
    badAcc ∈ [badAcc, goodAcc] ∧ badRead badAcc ∧
    prefetchRun ⟨[7]⟩ (.ok [badAcc, goodAcc])
      = (⟨[7]⟩, some "RangeError: readUInt32LE out of range") :=
  ⟨by decide, by decide,
    badAccount_aborts_rebuild ⟨[7]⟩ [badAcc, goodAcc] badAcc
      (by decide) (by decide) (by decide)⟩

/-- Claim C1 (counterexample): the coordinator keeps no record of the
filter that built the cache. After building the Index under filter "a"
(caching Alice's key 2), a call with filter "b" and `reload = false`
triggers no rebuild and returns Alice's record — the page is served from
the stale Index even though a rebuild under "b" would return the amy
record instead. -/
theorem stale_filter_page_served :
    (fetchPage exLedger ⟨[]⟩ 1 5 "a" false).state = ⟨[2]⟩ ∧
    (fetchPage exLedger ⟨[2]⟩ 1 5 "b" false).rebuilt = false ∧
    (fetchPage exLedger ⟨[2]⟩ 1 5 "b" false).outcome = .ok [⟨"Al", "hi"⟩] ∧
    (fetchPage exLedger ⟨[]⟩ 1 5 "b" false).outcome = .ok [⟨"am", "!"⟩] := by
  decide

/-- Claim C1 (amended): a rebuild is triggered exactly when the Index is
empty or `forceReload` is set; the filter argument is never compared
against the one that built the Index, so with a non-empty Index and
`reload = false` the call rebuilds nothing and its entire result is
independent of the filter string — the page is served from the existing
(possibly stale) Index. -/
theorem filter_not_tracked (led : Ledger) (st : CoordState)
    (page perPage : Int) (search1 search2 : String)
    (hne : st.accounts ≠ []) :
    fetchPage led st page perPage search1 false
      = fetchPage led st page perPage search2 false ∧
    (fetchPage led st page perPage search1 false).rebuilt = false := by
  have hlen : st.accounts.length ≠ 0 :=
    fun h => hne (List.length_eq_zero.mp h)
  have hr : rebuildNeeded st false = false := by
    simp [rebuildNeeded, hlen]
  have h1 := @step1_no_rebuild led st search1 false hr
  have h2 := @step1_no_rebuild led st search2 false hr
  constructor
  · rw [fetchPage_of_step1 page perPage h1, fetchPage_of_step1 page perPage h2]
  · rw [fetchPage_of_step1 page perPage h1, hr]
    split <;> rfl

/-- Witness for the amended C1 on a concrete non-empty state. -/
theorem filter_not_tracked_witness :
    fetchPage exLedger ⟨[2]⟩ 1 5 "b" false
      = fetchPage exLedger ⟨[2]⟩ 1 5 "zzz" false ∧
    (fetchPage exLedger ⟨[2]⟩ 1 5 "b" false).rebuilt = false :=
  filter_not_tracked exLedger ⟨[2]⟩ 1 5 "b" "zzz" (by decide)

/-- Claim C3 (counterexample): the discovery data slice carries at most 8
name bytes, so two 9-byte names agreeing on their first 8 bytes compare
equal; the account with the byte-larger full name ("aaaaaaaab", key 1)
stays in front of the byte-smaller one ("aaaaaaaaa", key 2) after a
successful rebuild, so the Index is not sorted ascending by the raw bytes
of the full name field. -/
theorem tie_beyond_clip_not_name_sorted :
    byteLexCompare [97, 97, 97, 97, 97, 97, 97, 97, 97]
        [97, 97, 97, 97, 97, 97, 97, 97, 98] < 0 ∧
    prefetchRun ⟨[]⟩ (.ok [tieAccB, tieAccA]) = (⟨[1, 2]⟩, none) := by
  decide

/-- Claim C3 (amended): after every successful rebuild the cached Index is
the discovery result stably sorted ascending by the comparator's clipped
key (the name bytes surviving the 12-byte data slice, compared by raw
lexicographic byte order with the shorter clipped key first); this agrees
with full raw-byte name order only up to the 8-byte clip. In particular,
the (short) names ["Bob", "Alice", "amy"] sort to ["Alice", "Bob", "amy"]
by raw byte comparison, not case-insensitive alphabetic order. -/
theorem rebuild_sorted_by_clipped_key :
    (∀ (st st' : CoordState) (accs : List AccountData),
      prefetchRun st (.ok accs) = (st', none) →
      ∃ l, sortM compareAccounts accs = some l ∧
        l.Perm accs ∧ List.Pairwise keyLe l ∧
        st'.accounts = l.map (fun a => a.pubkey)) ∧
    prefetchRun ⟨[]⟩ (.ok [bobAcc, aliceAcc, amyAcc])
      = (⟨[2, 1, 3]⟩, none) := by
  constructor
  · intro st st' accs h
    rw [prefetchRun_ok] at h
    cases hs : sortM compareAccounts accs with
    | none => rw [hs] at h; simp at h
    | some l =>
      rw [hs] at h
      simp at h
      exact ⟨l, rfl, sortM_perm hs, sortM_sorted hs, by rw [← h]⟩
  · decide

/-- Witness for the amended C3 on the Bob/Alice/amy discovery result. -/
theorem rebuild_sorted_by_clipped_key_witness :
    ∃ l, sortM compareAccounts [bobAcc, aliceAcc, amyAcc] = some l ∧
      l.Perm [bobAcc, aliceAcc, amyAcc] ∧ List.Pairwise keyLe l ∧
      (⟨[2, 1, 3]⟩ : CoordState).accounts = l.map (fun a => a.pubkey) :=
  rebuild_sorted_by_clipped_key.1 ⟨[]⟩ ⟨[2, 1, 3]⟩ [bobAcc, aliceAcc, amyAcc]
    (by decide)

theorem u32le_length (n : Nat) : (u32le n).length = 4 := rfl

theorem readUInt32LE_u32le_append (L : Nat) (X : List Nat)
    (h : L < 4294967296) : readUInt32LE (u32le L ++ X) = some L := by
  simp [u32le, readUInt32LE]
  omega

theorem mkDiscovered_data_long {pk meta : Nat} {name msg : List Nat}
    (h8 : 8 ≤ name.length) :
    (mkDiscovered pk meta name msg).data = u32le name.length ++ name.take 8 := by
  unfold mkDiscovered discoverySlice accountFullData
  simp only [List.append_assoc, List.drop_succ_cons, List.drop_zero]
  rw [List.take_append_eq_append_take]
  rw [List.take_of_length_le (by rw [u32le_length]; omega)]
  rw [u32le_length]
  rw [List.take_append_eq_append_take]
  have h0 : 12 - 4 - name.length = 0 := by omega
  rw [h0]
  simp

theorem sortKey_mk_long {pk meta : Nat} {name msg : List Nat}
    (h8 : 8 ≤ name.length) (hlt : name.length < 4294967296) :
    readUInt32LE (mkDiscovered pk meta name msg).data = some name.length ∧
    sortKey (mkDiscovered pk meta name msg) = name.take 8 := by
  have hd := @mkDiscovered_data_long pk meta name msg h8
  have hread : readUInt32LE (mkDiscovered pk meta name msg).data
      = some name.length := by
    rw [hd]
    exact readUInt32LE_u32le_append name.length (name.take 8) hlt
  refine ⟨hread, ?_⟩
  simp only [sortKey, hread]
  unfold bufSlice
  rw [hd]
  rw [List.take_of_length_le ?hle]
  case hle =>
    rw [List.length_append, u32le_length, List.length_take]
    omega
  rw [show (4 : Nat) = (u32le name.length).length from rfl, List.drop_left]

/-- Claim C9: discovery fetches only 12 bytes per account (4-byte length
prefix plus at most 8 name bytes), so the rebuild comparator sees at most
the first 8 bytes of each name: any two accounts whose names are at least
8 bytes long and agree on their first 8 bytes compare as 0, and the Index
order between them is not determined by the full name field. -/
theorem clipped_comparator_ties (pk1 pk2 m1 m2 : Nat)
    (name1 name2 msg1 msg2 : List Nat)
    (h81 : 8 ≤ name1.length) (h82 : 8 ≤ name2.length)
    (hl1 : name1.length < 4294967296) (hl2 : name2.length < 4294967296)
    (hpre : name1.take 8 = name2.take 8) :
    compareAccounts (mkDiscovered pk1 m1 name1 msg1)
      (mkDiscovered pk2 m2 name2 msg2) = some 0 := by
  obtain ⟨hr1, hk1⟩ := @sortKey_mk_long pk1 m1 name1 msg1 h81 hl1
  obtain ⟨hr2, hk2⟩ := @sortKey_mk_long pk2 m2 name2 msg2 h82 hl2
  rw [compareAccounts_eq_key hr1 hr2, hk1, hk2, hpre, byteLexCompare_self]

/-- Witness for C9 on two 9-byte names sharing their first 8 bytes. -/
theorem clipped_comparator_ties_witness :
    compareAccounts
      (mkDiscovered 1 0 [97, 97, 97, 97, 97, 97, 97, 97, 98] [])
      (mkDiscovered 2 0 [97, 97, 97, 97, 97, 97, 97, 97, 97] []) = some 0 :=
  clipped_comparator_ties 1 2 0 0
    [97, 97, 97, 97, 97, 97, 97, 97, 98]
    [97, 97, 97, 97, 97, 97, 97, 97, 97] [] []
    (by decide) (by decide) (by decide) (by decide) (by decide)

/-- Claim C8: the embedding of `fetchPage` is a pure function of the
cached state, the ledger responses and the arguments, so it is
deterministic by construction; this theorem states the two-run property:
for a fixed ledger, a successful call with `forceReload = false` followed
by a second call with the same arguments (threading the possibly rebuilt
state) returns the same records in the same order, and leaves the state
unchanged. -/
theorem fetchPage_idempotent (led : Ledger) (st : CoordState)
    (page perPage : Int) (search : String)
    (recs : List StudentIntroReference)
    (h : (fetchPage led st page perPage search false).outcome = .ok recs) :
    (fetchPage led (fetchPage led st page perPage search false).state
        page perPage search false).outcome = .ok recs ∧
    (fetchPage led (fetchPage led st page perPage search false).state
        page perPage search false).state
      = (fetchPage led st page perPage search false).state := by
  cases hstep : step1 led st search false with
  | mk st1 eOpt =>
    cases eOpt with
    | some e =>
      rw [fetchPage_of_step1_err page perPage hstep] at h
      simp at h
    | none =>
      have hfp1 := fetchPage_of_step1 page perPage hstep
      have hstate : (fetchPage led st page perPage search false).state = st1 := by
        rw [hfp1]
        split <;> rfl
      rw [hstate]
      by_cases hemp : st1.accounts = []
      · have hps : pageSlice st1.accounts page perPage = [] := by
          rw [hemp]
          exact pageSlice_nil page perPage
        have hrecs : recs = [] := by
          rw [hfp1, hps] at h
          simpa using h.symm
        have hrn : rebuildNeeded st1 false = true := by
          simp [rebuildNeeded, hemp]
        have hpre : prefetchRun st1 (led.discovered search) = (st1, none) := by
          by_cases hrn0 : rebuildNeeded st false = true
          · rw [step1_rebuild hrn0] at hstep
            exact prefetchRun_ok_state_free hstep
          · have hrn0' : rebuildNeeded st false = false := by
              simpa using hrn0
            rw [step1_no_rebuild hrn0'] at hstep
            have hst : st = st1 := by
              have := congrArg Prod.fst hstep
              simpa using this
            exfalso
            rw [← hst] at hemp
            simp [rebuildNeeded, hemp] at hrn0'
        have hstep2 : step1 led st1 search false = (st1, none) := by
          rw [step1_rebuild hrn]
          exact hpre
        have hfp2 := fetchPage_of_step1 page perPage hstep2
        rw [hfp2, hps]
        constructor
        · simp [hrecs]
        · rfl
      · have hrn : rebuildNeeded st1 false = false := by
          have hlen : st1.accounts.length ≠ 0 :=
            fun hh => hemp (List.length_eq_zero.mp hh)
          simp [rebuildNeeded, hlen]
        have hstep2 := @step1_no_rebuild led st1 search false hrn
        have hfp2 := fetchPage_of_step1 page perPage hstep2
        rw [hfp1] at h
        rw [hfp2]
        by_cases hps : (pageSlice st1.accounts page perPage).isEmpty
        · rw [if_pos hps] at h ⊢
          exact ⟨h, rfl⟩
        · rw [if_neg hps] at h ⊢
          exact ⟨h, rfl⟩

/-- Witness for C8: two successive calls on the example ledger return the
same single record. -/
theorem fetchPage_idempotent_witness :
    (fetchPage exLedger (fetchPage exLedger ⟨[]⟩ 1 5 "a" false).state
        1 5 "a" false).outcome = .ok [⟨"Al", "hi"⟩] ∧
    (fetchPage exLedger (fetchPage exLedger ⟨[]⟩ 1 5 "a" false).state
        1 5 "a" false).state
      = (fetchPage exLedger ⟨[]⟩ 1 5 "a" false).state :=
  fetchPage_idempotent exLedger ⟨[]⟩ 1 5 "a" [⟨"Al", "hi"⟩] (by decide)
